import Mathlib

/-!
Shallow embedding of `container::vector` (src/vector.h).

A vector state is modelled by the list of live elements (`data`, the slots
`[0, m_size)`), the allocated capacity (`cap`, the field `m_capacity`) and
whether the base pointer `m_vector` is null (`isNull`).  Machine integers
(`std::size_t`) are modelled by `Nat`; the sizes involved never approach
`2^64` in any statement below, so no wrap-around is modelled.  Addresses are
modelled as offsets from the base pointer.
-/

namespace VectorModel

structure Vec (α : Type) where
  data : List α
  cap : Nat
  isNull : Bool
deriving DecidableEq, Repr

variable {α : Type}

/-- `size()` returns `m_size`, the number of live elements. -/
def Vec.size (v : Vec α) : Nat := v.data.length

/-- The default constructor: `m_vector = nullptr`, zero size and capacity. -/
def vecNew (α : Type) : Vec α := ⟨[], 0, true⟩

/-- One pass of the growth loop body from `emplace` / `insert`:
`if (m_capacity == 0) m_capacity = 1; m_capacity *= constants::realloc_factor;`
with `realloc_factor = 2`. -/
def growStep (c : Nat) : Nat := (if c = 0 then 1 else c) * 2

/-- The do-while growth loop `do { growStep } while (m_capacity < req)`,
run with explicit fuel.  The loop body at least doubles a positive capacity,
so `req + 1` iterations always suffice; every use below passes that fuel. -/
def growLoop : Nat → Nat → Nat → Nat
  | 0, c, _ => c
  | fuel + 1, c, req =>
    let c2 := growStep c
    if c2 < req then growLoop fuel c2 req else c2

/-- Capacity produced by the growth loop starting from capacity `c` with
requirement `req` (the loop runs at least once, being do-while). -/
def growFrom (c req : Nat) : Nat := growLoop (req + 1) c req

/-- `emplace(end(), x)` as called by `push_back` / `emplace_back`:
if `size() + 1 < capacity()` construct in place at the end, otherwise run
the growth loop with requirement `1 + size()`, reallocate
(`reallocate_strong_guarantee`) and append through `shift_and_construct`
at position `size()`. -/
def emplaceBack (v : Vec α) (x : α) : Vec α :=
  if v.data.length + 1 < v.cap then
    { v with data := v.data ++ [x] }
  else
    { data := v.data ++ [x], cap := growFrom v.cap (v.data.length + 1),
      isNull := false }

/-- State after `k` tail appends starting from a default-constructed vector. -/
def appendK : Nat → Vec Int
  | 0 => vecNew Int
  | k + 1 => emplaceBack (appendK k) 0

/-- Modelled from the spec wording, for comparison with the code: the new
capacity is "found by repeated doubling from the current capacity (starting
at 1 if zero) until ≥ required"; with first argument 0 this yields "the
smallest value in the sequence 1, 2, 4, 8, ... that is ≥ req". -/
def specDoubleFrom (c req : Nat) : Nat :=
  if c = 0 then specDoubleFrom 1 req
  else if c < req then specDoubleFrom (2 * c) req
  else c
termination_by req + 2 - c
decreasing_by
  all_goals omega

lemma growStep_pos (c : Nat) : 0 < growStep c := by
  unfold growStep
  split <;> omega

lemma growFrom_of_le (c req : Nat) (h : req ≤ growStep c) :
    growFrom c req = growStep c := by
  unfold growFrom growLoop
  simp [Nat.not_lt.mpr h]

lemma emplaceBack_length (v : Vec α) (x : α) :
    (emplaceBack v x).data.length = v.data.length + 1 := by
  unfold emplaceBack
  split <;> simp

lemma appendK_length (k : Nat) : (appendK k).data.length = k := by
  induction k with
  | zero => rfl
  | succ n ih => rw [appendK, emplaceBack_length, ih]

/-- `max_size()` returns `std::numeric_limits<std::ptrdiff_t>::max()`. -/
def maxSize : Nat := 2 ^ 63 - 1

/-- `reserve(n)`: throws `length_error` (modelled as `none`) when
`n > max_size()`, reallocates to exactly `n` slots keeping the elements
(`reallocate_strong_guarantee`) when `n > m_capacity`, and otherwise does
nothing. -/
def reserve (v : Vec α) (n : Nat) : Option (Vec α) :=
  if maxSize < n then none
  else if v.cap < n then some { data := v.data, cap := n, isNull := false }
  else some v

/-- A sequence of tail appends. -/
def appendList (v : Vec α) (xs : List α) : Vec α := xs.foldl emplaceBack v

/-- `clear()` calls `destruct(m_size)`: every live element is destroyed and
`m_size` becomes 0; `m_capacity` and `m_vector` are not touched. -/
def clear (v : Vec α) : Vec α := { v with data := [] }

/-- `pop_back()`: destroys the last element and decrements `m_size`. -/
def popBack (v : Vec α) : Vec α := { v with data := v.data.dropLast }

/-- `erase(first, last)` with `first_position = f` and `last_position = l`:
destroys the elements in `[f, l)`, shifts `[l, size)` down onto `f`
(by move or copy assignment), and subtracts `l - f` from `m_size`; the live
range becomes the first `f` elements followed by the elements from `l` on.
`m_capacity` and `m_vector` are untouched. -/
def eraseRange (v : Vec α) (f l : Nat) : Vec α :=
  { v with data := v.data.take f ++ v.data.drop l }

/-- `shift_and_construct(index_pos, value, count)`: copy-constructs the
`count` slots past the end, shifts `[index_pos, size)` up by `count` slots
by backward assignment, destroys `[index_pos, index_pos + count)` and
reconstructs those slots from `value`, then adds `count` to `m_size`.  The
live range becomes: the first `index_pos` elements, `count` copies of
`value`, then the remaining elements. -/
def shiftConstruct (v : Vec α) (p : Nat) (x : α) (k : Nat) : Vec α :=
  { v with data := v.data.take p ++ List.replicate k x ++ v.data.drop p }

/-- `insert_end_strong_guarantee(value)`: constructs one copy of `value` at
`m_vector + m_size` and increments `m_size` by one. -/
def insertEndStrong (v : Vec α) (x : α) : Vec α :=
  { v with data := v.data ++ [x] }

/-- `insert(pos, count, value)` with `pos_index_position = p`:
if `size() + count < capacity()` then a position equal to `end()` goes
through `insert_end_strong_guarantee` (one copy) and an interior position
through `shift_and_construct`; otherwise the growth loop runs with
requirement `m_size` (not `m_size + count`), the vector is reallocated and
`shift_and_construct` runs against the new block. -/
def insertCount (v : Vec α) (p k : Nat) (x : α) : Vec α :=
  if v.data.length + k < v.cap then
    if p = v.data.length then insertEndStrong v x
    else shiftConstruct v p x k
  else
    shiftConstruct
      { v with cap := growFrom v.cap v.data.length, isNull := false } p x k

/-- `operator=(const vector&)` for a non-self assignment (default allocator,
so no propagation):  when the source's `m_vector` is non-null, reallocate to
`other.size()` slots if `other.size() > capacity()` and then copy the
source's elements over `[0, other.size())`, setting `m_size = other.m_size`;
when the source's `m_vector` is null, set `m_vector = nullptr` and
`m_size = 0`, leaving `m_capacity` as it was. -/
def copyAssign (t s : Vec α) : Vec α :=
  if s.isNull then { t with data := [], isNull := true }
  else if t.cap < s.data.length then
    { data := s.data, cap := s.data.length, isNull := false }
  else
    { t with data := s.data }

/-- `operator=(vector&&)` for a non-self assignment with the default
allocator (`propagate_on_container_move_assignment` holds, first branch):
`deallocate_and_destruct` empties the target, `m_vector = other.m_vector`
adopts the source's block, `reset(other)` nulls the source and zeroes its
size and capacity, and then — after that reset — `m_size = other.m_size`
and `m_capacity = other.m_capacity` copy the now-zero fields.  The result
is the pair (target after the call, source after the call); the target's
live range is the first `other.m_size`-after-reset (= 0) elements of the
adopted block. -/
def moveAssign (b a : Vec α) : Vec α × Vec α :=
  let aAfter : Vec α := ⟨[], 0, true⟩
  let bAfter : Vec α :=
    { data := a.data.take aAfter.data.length, cap := aAfter.cap,
      isNull := a.isNull }
  (bAfter, aAfter)

/-- State observable after a tail append (`push_back` / `emplace_back`)
propagates an element-construction failure.  In the in-place branch of
`emplace` the failed construct at `m_vector + size()` leaves every member
unchanged (the catch block destroys the dead slot and rethrows).  In the
overflow branch the growth loop has already written the doubled value into
`m_capacity` before `reallocate_strong_guarantee` throws, and that
function's cleanup restores only the new block, never `m_capacity`; the
failure then propagates with `m_vector` and `m_size` unchanged. -/
def emplaceBackFailState (v : Vec α) : Vec α :=
  if v.data.length + 1 < v.cap then v
  else { v with cap := growFrom v.cap (v.data.length + 1) }

/-- `m_vector` as an address: `none` for null, `some 0` for the base of the
block (offset of slot 0). -/
def basePtr (v : Vec α) : Option Nat :=
  if v.isNull then none else some 0

/-- `data()`: `return (size() != 0) ? m_vector : nullptr;`. -/
def dataPtr (v : Vec α) : Option Nat :=
  if v.data.length ≠ 0 then basePtr v else none

/-- `std::equal(f1, l1, f2, l2)`: false when the ranges have different
lengths, elementwise equality otherwise. -/
def stdEqual [BEq α] : List α → List α → Bool
  | [], [] => true
  | x :: xs, y :: ys => x == y && stdEqual xs ys
  | _, _ => false

/-- `operator==`: `first.m_size == second.m_size && std::equal(...)`. -/
def vecEq [BEq α] (a b : Vec α) : Bool :=
  a.data.length == b.data.length && stdEqual a.data b.data

/-- `operator!=`: `!(*this == other)`. -/
def vecNe [BEq α] (a b : Vec α) : Bool := !vecEq a b

/-- `std::lexicographical_compare` over `<`. -/
def lexLt [LT α] [DecidableRel (α := α) (· < ·)] : List α → List α → Bool
  | _, [] => false
  | [], _ :: _ => true
  | x :: xs, y :: ys =>
    if x < y then true else if y < x then false else lexLt xs ys

/-- `operator<`: lexicographic comparison of the live ranges. -/
def vecLt [LT α] [DecidableRel (α := α) (· < ·)] (a b : Vec α) : Bool :=
  lexLt a.data b.data

/-- `operator>`: the source returns `!(*this < other)`. -/
def vecGt [LT α] [DecidableRel (α := α) (· < ·)] (a b : Vec α) : Bool :=
  !vecLt a b

/-- `operator<=`: `!(other < *this)`. -/
def vecLe [LT α] [DecidableRel (α := α) (· < ·)] (a b : Vec α) : Bool :=
  !vecLt b a

/-- `operator>=`: `!(*this < other)`. -/
def vecGe [LT α] [DecidableRel (α := α) (· < ·)] (a b : Vec α) : Bool :=
  !vecLt a b

/-- The representation invariant of §3 of the spec: `0 ≤ size ≤ capacity`
and the base address is null exactly when the capacity is 0 (contiguity of
the live elements is built into the list model). -/
def Vec.wf (v : Vec α) : Prop :=
  v.data.length ≤ v.cap ∧ (v.isNull = true ↔ v.cap = 0)

instance (v : Vec α) : Decidable v.wf := by
  unfold Vec.wf
  infer_instance

lemma emplaceBack_cap_lt (v : Vec α) (x : α) (h : v.data.length + 1 < v.cap) :
    (emplaceBack v x).cap = v.cap := by
  unfold emplaceBack
  simp [h]

lemma emplaceBack_cap_ge (v : Vec α) (x : α)
    (h : ¬ v.data.length + 1 < v.cap) :
    (emplaceBack v x).cap = growFrom v.cap (v.data.length + 1) := by
  unfold emplaceBack
  simp [h]

lemma growStep_two_pow (j : Nat) : growStep (2 ^ (j + 1)) = 2 ^ (j + 2) := by
  have h : (2 : Nat) ^ (j + 1) ≠ 0 := by positivity
  unfold growStep
  simp [h, pow_succ]

/-- C1, counterexample: starting from capacity 0, the very first append
leaves capacity 2, while the smallest value of the sequence 1, 2, 4, 8, ...
that is ≥ 1 is 1; the claimed doubling law fails at k = 1. -/
theorem growth_first_append_cex :
    (appendK 1).cap = 2 ∧ specDoubleFrom 0 1 = 1 ∧
      (appendK 1).cap ≠ specDoubleFrom 0 1 := by
  have h1 : (appendK 1).cap = 2 := by decide
  have h2 : specDoubleFrom 0 1 = 1 := by simp [specDoubleFrom]
  refine ⟨h1, h2, ?_⟩
  rw [h1, h2]
  decide

/-- C1, amended: an append reallocates already when `size + 1 ≥ capacity`
(one slot is always left unused), and the growth loop, being do-while,
doubles at least once even from capacity 0; consequently, starting from
capacity 0, after `k ≥ 1` appends with no intervening erase or reserve the
size is `k` and the capacity is the smallest power of two strictly greater
than `k` (2, 4, 4, 8, 8, 8, 8, 16, ...). -/
theorem growth_doubling_amended (k : Nat) (h : 1 ≤ k) :
    (appendK k).data.length = k ∧
      ∃ j, (appendK k).cap = 2 ^ (j + 1) ∧ 2 ^ j ≤ k ∧ k < 2 ^ (j + 1) := by
  refine ⟨appendK_length k, ?_⟩
  induction k with
  | zero => omega
  | succ n ih =>
    by_cases hn : 1 ≤ n
    · obtain ⟨j, hcap, hle, hlt⟩ := ih hn
      by_cases hc : n + 1 < (appendK n).cap
      · -- spare capacity: append in place, capacity unchanged
        refine ⟨j, ?_, by omega, ?_⟩
        · rw [appendK, emplaceBack_cap_lt _ _ (by rw [appendK_length]; omega),
            hcap]
        · omega
      · -- overflow: the capacity was exactly n + 1 = 2 ^ (j + 1)
        have he : n + 1 = 2 ^ (j + 1) := by omega
        have hgrow : growFrom (2 ^ (j + 1)) (n + 1) = 2 ^ (j + 2) := by
          rw [growFrom_of_le, growStep_two_pow]
          rw [growStep_two_pow]
          have := Nat.pow_le_pow_right (by omega : 1 ≤ 2)
            (by omega : j + 1 ≤ j + 2)
          omega
        refine ⟨j + 1, ?_, by omega, ?_⟩
        · rw [appendK, emplaceBack_cap_ge _ _ (by rw [appendK_length]; omega),
            appendK_length, hcap, hgrow]
        · have := Nat.pow_le_pow_right (by omega : 1 ≤ 2)
            (by omega : j + 1 ≤ j + 2)
          have h2 : (2 : Nat) ^ (j + 1) < 2 ^ (j + 2) := by
            have hp : (0 : Nat) < 2 ^ (j + 1) := by positivity
            calc (2 : Nat) ^ (j + 1) < 2 ^ (j + 1) * 2 := by omega
              _ = 2 ^ (j + 2) := (pow_succ 2 (j + 1)).symm
          omega
    · have hn0 : n = 0 := by omega
      subst hn0
      exact ⟨0, by decide, by decide, by decide⟩

/-- C1, witness: after 5 appends from capacity 0 the size is 5 and the
capacity is 8 = 2 ^ 3, the smallest power of two greater than 5. -/
theorem growth_doubling_amended_witness :
    1 ≤ 5 ∧
      ((appendK 5).data.length = 5 ∧
        ∃ j, (appendK 5).cap = 2 ^ (j + 1) ∧ 2 ^ j ≤ 5 ∧ 5 < 2 ^ (j + 1)) :=
  ⟨by decide, growth_doubling_amended 5 (by decide)⟩

/-- C2: on a tail append from a full vector (size 2, capacity 2) whose
element construction fails during reallocation, the failure leaves the
size and contents unchanged but the capacity has already been doubled to 4
by the growth loop, so the strong guarantee claimed by the code's own
comment (and by the name `reallocate_strong_guarantee`) is violated. -/
theorem append_fail_capacity_changed :
    (⟨[7, 8], 2, false⟩ : Vec Int).wf ∧
      (emplaceBackFailState (⟨[7, 8], 2, false⟩ : Vec Int)).data = [7, 8] ∧
      (emplaceBackFailState (⟨[7, 8], 2, false⟩ : Vec Int)).cap = 4 ∧
      (⟨[7, 8], 2, false⟩ : Vec Int).cap = 2 := by
  decide

/-- C3: after `b = move(a)` with `b = {5}` and `a = {1, 2, 3}` the code
leaves `b` with size 0 and capacity 0 — the final `m_size = other.m_size`
and `m_capacity = other.m_capacity` read the fields already zeroed by
`reset(other)` — although `a` formerly held 3 elements; the source is
indeed left empty with capacity 0. -/
theorem move_assign_empties_target :
    (moveAssign (⟨[5], 2, false⟩ : Vec Int) ⟨[1, 2, 3], 4, false⟩).1.data
        = [] ∧
      (moveAssign (⟨[5], 2, false⟩ : Vec Int) ⟨[1, 2, 3], 4, false⟩).1.cap
        = 0 ∧
      (⟨[1, 2, 3], 4, false⟩ : Vec Int).data.length = 3 ∧
      (moveAssign (⟨[5], 2, false⟩ : Vec Int) ⟨[1, 2, 3], 4, false⟩).2.data
        = [] ∧
      (moveAssign (⟨[5], 2, false⟩ : Vec Int) ⟨[1, 2, 3], 4, false⟩).2.cap
        = 0 := by
  decide

lemma appendList_stable (n : Nat) :
    ∀ (xs : List α) (v : Vec α), n ≤ v.cap →
      v.data.length + xs.length + 1 ≤ n →
      (appendList v xs).cap = v.cap ∧
        (appendList v xs).data.length = v.data.length + xs.length
  | [], v, _, _ => by simp [appendList]
  | x :: xs, v, hcap, hlen => by
    have hin : v.data.length + 1 < v.cap := by
      simp only [List.length_cons] at hlen
      omega
    have hstep : emplaceBack v x = { v with data := v.data ++ [x] } := by
      unfold emplaceBack
      simp [hin]
    have hrec := appendList_stable n xs { v with data := v.data ++ [x] }
      (by simpa using hcap)
      (by
        simp only [List.length_append, List.length_cons, List.length_nil]
        simp only [List.length_cons] at hlen
        omega)
    simp only [appendList, List.foldl_cons, hstep] at hrec ⊢
    refine ⟨hrec.1, ?_⟩
    rw [hrec.2]
    simp only [List.length_append, List.length_cons, List.length_nil]
    omega

/-- C4, counterexample: `reserve(1)` on an empty vector sets the capacity
to 1, but the single append that brings the size to 1 (= n) already
reallocates — `emplace` grows whenever `size + 1 < capacity` fails — so the
capacity changes to 2. -/
theorem reserve_append_stable_cex :
    reserve (vecNew Int) 1 = some ⟨[], 1, false⟩ ∧
      (appendList (⟨[], 1, false⟩ : Vec Int) [0]).data.length = 1 ∧
      (appendList (⟨[], 1, false⟩ : Vec Int) [0]).cap = 2 := by
  refine ⟨by decide, by decide, by decide⟩

/-- C4, amended: `reserve(n)` is a no-op when `n ≤ capacity` and otherwise
sets the capacity to exactly `n` keeping the elements; after it, any
sequence of tail appends that keeps the size at most `n - 1` (strictly
below `n`) never changes the capacity. -/
theorem reserve_append_stable (v : Vec α) (n : Nat) (v2 : Vec α)
    (xs : List α) (h : reserve v n = some v2)
    (hlen : v2.data.length + xs.length + 1 ≤ n) :
    (appendList v2 xs).cap = v2.cap ∧
      (n ≤ v.cap → v2 = v) ∧
      (v.cap < n → v2.cap = n ∧ v2.data = v.data) := by
  unfold reserve at h
  by_cases h1 : maxSize < n
  · simp [h1] at h
  · simp only [h1, if_false] at h
    by_cases h2 : v.cap < n
    · simp only [h2, if_true, Option.some.injEq] at h
      subst h
      exact ⟨(appendList_stable n xs _ (by simp) hlen).1,
        fun hle => absurd h2 (by omega), fun _ => ⟨rfl, rfl⟩⟩
    · simp only [h2, if_false, Option.some.injEq] at h
      subst h
      exact ⟨(appendList_stable n xs _ (by omega) hlen).1,
        fun _ => rfl, fun hlt => absurd hlt h2⟩

/-- C4, witness: `reserve(3)` on an empty vector then two appends (size 2
≤ 3 - 1) leaves the capacity at 3. -/
theorem reserve_append_stable_witness :
    (reserve (vecNew Int) 3 = some ⟨[], 3, false⟩ ∧
      (⟨[], 3, false⟩ : Vec Int).data.length
        + ([5, 6] : List Int).length + 1 ≤ 3) ∧
      ((appendList (⟨[], 3, false⟩ : Vec Int) [5, 6]).cap
          = (⟨[], 3, false⟩ : Vec Int).cap ∧
        (3 ≤ (vecNew Int).cap → (⟨[], 3, false⟩ : Vec Int) = vecNew Int) ∧
        ((vecNew Int).cap < 3 → (⟨[], 3, false⟩ : Vec Int).cap = 3 ∧
          (⟨[], 3, false⟩ : Vec Int).data = (vecNew Int).data)) :=
  ⟨⟨by decide, by decide⟩,
    reserve_append_stable (vecNew Int) 3 ⟨[], 3, false⟩ [5, 6]
      (by decide) (by decide)⟩

/-- C5: inserting 3 copies of 9 at position 2 = size (the end) of `{1, 2}`
with spare capacity 10 appends a single copy — the `pos == end()` branch of
`insert(pos, count, value)` calls `insert_end_strong_guarantee(value)` once
and ignores `count` — so the size grows by 1, not by `k` as claimed (and as
the interior branch and the return value's treatment of `count` intend). -/
theorem insert_count_at_end_single_copy :
    (insertCount (⟨[1, 2], 10, false⟩ : Vec Int) 2 3 9).data = [1, 2, 9] ∧
      (insertCount (⟨[1, 2], 10, false⟩ : Vec Int) 2 3 9).data.length
        ≠ 2 + 3 := by
  decide

/-- C6: copy assignment from an empty (never-allocated) source onto a
vector with capacity 2 nulls the base pointer and zeroes the size but
leaves `m_capacity = 2` untouched (also leaking the old block), so the
resulting state violates the invariant "base address is null iff capacity
is 0" although both operands satisfied it. -/
theorem copy_assign_empty_breaks_invariant :
    (⟨[1, 2], 2, false⟩ : Vec Int).wf ∧ (vecNew Int).wf ∧
      (copyAssign (⟨[1, 2], 2, false⟩ : Vec Int) (vecNew Int)).isNull
        = true ∧
      (copyAssign (⟨[1, 2], 2, false⟩ : Vec Int) (vecNew Int)).cap = 2 ∧
      ¬ (copyAssign (⟨[1, 2], 2, false⟩ : Vec Int) (vecNew Int)).wf := by
  decide

/-- C7, counterexample: `clear()` on `{1, 2}` (capacity 2) leaves the
capacity at 2 and the block allocated, not capacity 0 with the memory
released as claimed. -/
theorem clear_keeps_block_cex :
    (clear (⟨[1, 2], 2, false⟩ : Vec Int)).cap = 2 ∧
      (clear (⟨[1, 2], 2, false⟩ : Vec Int)).cap ≠ 0 ∧
      (clear (⟨[1, 2], 2, false⟩ : Vec Int)).isNull = false := by
  decide

/-- C7, amended: `clear()` destroys all live elements, leaving size 0, but
does not release the block: the capacity and the base pointer are
unchanged (memory is released only by destruction, reallocation or
move-out). -/
theorem clear_spec (v : Vec α) :
    (clear v).data = [] ∧ (clear v).cap = v.cap ∧
      (clear v).isNull = v.isNull :=
  ⟨rfl, rfl, rfl⟩

/-- C8: erasing the valid range `[f, l)` removes exactly `l - f` elements,
never changes the capacity (or the block), keeps every element before `f`
at its index, shifts every surviving trailing element down by `l - f`
preserving order, and in particular erasing `[1, 3)` from `{10, 20, 30,
40}` yields `{10, 40}`. -/
theorem erase_range_spec (v : Vec α) (f l i j : Nat) (hf : f ≤ l)
    (hl : l ≤ v.data.length) (hi : i < f) (hj1 : f ≤ j)
    (hj2 : j < v.data.length - (l - f)) :
    (eraseRange v f l).data.length = v.data.length - (l - f) ∧
      (eraseRange v f l).cap = v.cap ∧
      (eraseRange v f l).isNull = v.isNull ∧
      (eraseRange v f l).data[i]? = v.data[i]? ∧
      (eraseRange v f l).data[j]? = v.data[j + (l - f)]? ∧
      (eraseRange (⟨[10, 20, 30, 40], 4, false⟩ : Vec Int) 1 3).data
        = [10, 40] := by
  have htake : (v.data.take f).length = f := by
    rw [List.length_take]
    omega
  refine ⟨?_, rfl, rfl, ?_, ?_, by decide⟩
  · show (v.data.take f ++ v.data.drop l).length = v.data.length - (l - f)
    rw [List.length_append, htake, List.length_drop]
    omega
  · show (v.data.take f ++ v.data.drop l)[i]? = v.data[i]?
    rw [List.getElem?_append_left (by omega), List.getElem?_take_of_lt hi]
  · show (v.data.take f ++ v.data.drop l)[j]? = v.data[j + (l - f)]?
    rw [List.getElem?_append_right (by omega), htake, List.getElem?_drop]
    congr 1
    omega

/-- C8, witness: on `{10, 20, 30, 40}` with `[f, l) = [1, 3)`, index 0 is
kept in place and index 1 receives the element formerly at index 3. -/
theorem erase_range_spec_witness :
    (1 ≤ 3 ∧ 3 ≤ (⟨[10, 20, 30, 40], 4, false⟩ : Vec Int).data.length ∧
      0 < 1 ∧ 1 ≤ 1 ∧
      1 < (⟨[10, 20, 30, 40], 4, false⟩ : Vec Int).data.length - (3 - 1)) ∧
      ((eraseRange (⟨[10, 20, 30, 40], 4, false⟩ : Vec Int) 1 3).data.length
          = (⟨[10, 20, 30, 40], 4, false⟩ : Vec Int).data.length - (3 - 1) ∧
        (eraseRange (⟨[10, 20, 30, 40], 4, false⟩ : Vec Int) 1 3).cap
          = (⟨[10, 20, 30, 40], 4, false⟩ : Vec Int).cap ∧
        (eraseRange (⟨[10, 20, 30, 40], 4, false⟩ : Vec Int) 1 3).isNull
          = (⟨[10, 20, 30, 40], 4, false⟩ : Vec Int).isNull ∧
        (eraseRange (⟨[10, 20, 30, 40], 4, false⟩ : Vec Int) 1 3).data[0]?
          = (⟨[10, 20, 30, 40], 4, false⟩ : Vec Int).data[0]? ∧
        (eraseRange (⟨[10, 20, 30, 40], 4, false⟩ : Vec Int) 1 3).data[1]?
          = (⟨[10, 20, 30, 40], 4, false⟩ : Vec Int).data[1 + (3 - 1)]? ∧
        (eraseRange (⟨[10, 20, 30, 40], 4, false⟩ : Vec Int) 1 3).data
          = [10, 40]) :=
  ⟨⟨by decide, by decide, by decide, by decide, by decide⟩,
    erase_range_spec ⟨[10, 20, 30, 40], 4, false⟩ 1 3 0 1 (by decide)
      (by decide) (by decide) (by decide) (by decide)⟩

/-- C9: `operator>` is implemented as `!(*this < other)` — the same body as
`operator>=` — so for the equal vectors `a = b = {1}` the code reports
`a > b` even though `b < a` is false; the claimed equivalence
`a > b ⇔ b < a` fails (equality itself behaves as claimed). -/
theorem gt_not_converse_lt :
    vecGt (⟨[1], 1, false⟩ : Vec Int) ⟨[1], 1, false⟩ = true ∧
      vecLt (⟨[1], 1, false⟩ : Vec Int) ⟨[1], 1, false⟩ = false ∧
      vecEq (⟨[1], 1, false⟩ : Vec Int) ⟨[1], 1, false⟩ = true ∧
      vecGe (⟨[1], 1, false⟩ : Vec Int) ⟨[1], 1, false⟩ = true := by
  decide

/-- C10: under the representation invariant, `data()` returns the null
pointer exactly when the size is 0 — even when a block is allocated
(capacity > 0) — and otherwise returns the base address, the address of
the element at index 0. -/
theorem data_null_iff_empty (v : Vec α)
    (h : v.isNull = true ↔ v.cap = 0) (hs : v.data.length ≤ v.cap) :
    (v.data.length = 0 → dataPtr v = none) ∧
      (v.data.length ≠ 0 → dataPtr v = some 0) := by
  constructor
  · intro h0
    simp [dataPtr, h0]
  · intro h0
    have hc : v.cap ≠ 0 := by omega
    have hn : v.isNull = false := by
      cases hb : v.isNull
      · rfl
      · exact absurd (h.mp hb) hc
    simp [dataPtr, basePtr, h0, hn]

/-- C10, witness: an empty vector holding an allocated block of capacity 5
(as after `reserve(5)` on an empty vector) has `data() = nullptr`. -/
theorem data_null_iff_empty_witness :
    (((⟨[], 5, false⟩ : Vec Int).isNull = true
        ↔ (⟨[], 5, false⟩ : Vec Int).cap = 0) ∧
      (⟨[], 5, false⟩ : Vec Int).data.length
        ≤ (⟨[], 5, false⟩ : Vec Int).cap) ∧
      (((⟨[], 5, false⟩ : Vec Int).data.length = 0 →
          dataPtr (⟨[], 5, false⟩ : Vec Int) = none) ∧
        ((⟨[], 5, false⟩ : Vec Int).data.length ≠ 0 →
          dataPtr (⟨[], 5, false⟩ : Vec Int) = some 0)) :=
  ⟨⟨by decide, by decide⟩,
    data_null_iff_empty ⟨[], 5, false⟩ (by decide) (by decide)⟩

end VectorModel
